import Mathlib

/-!
Shallow embedding of the `nes-rs` 6502 CPU core (`src/cpu.rs`, `src/memory.rs`,
`src/cpu/reg.rs`, `src/cpu/ops.rs`).

Machine integers are modelled as `Nat` with explicit `% 256` (u8) and `% 65536`
(u16) wherever the Rust code wraps (release-mode semantics of `+`, `<<`,
`wrapping_add`, `wrapping_sub`, `as` casts).  Rust operations that can panic
(array indexing out of bounds, `panic!` arms of a `match`) are modelled as
`Option`, returning `none` on the panicking path.
-/

namespace NesRs

/-- Size parameter of the CPU's memory map instantiation: `SimpleMap<0xFFFF>`
(`mem: SimpleMap<0xFFFF>` in `struct CPU`). -/
def MEM_SIZE : Nat := 0xFFFF

/-- `SimpleMap<S>([u8; S])`: the flat backing array, modelled as a function from
index to byte.  Only indices below `MEM_SIZE` are meaningful. -/
structure SimpleMap where
  data : Nat → Nat

/-- `SimpleMap::read_u8`: `self.0[addr]`.  Rust slice indexing panics when
`addr` is not below the array length, modelled as `none`. -/
def SimpleMap.read_u8 (m : SimpleMap) (addr : Nat) : Option Nat :=
  if addr < MEM_SIZE then some (m.data addr) else none

/-- `SimpleMap::write_u8`: `self.0[addr] = val`, panicking (`none`) out of bounds. -/
def SimpleMap.write_u8 (m : SimpleMap) (addr val : Nat) : Option SimpleMap :=
  if addr < MEM_SIZE then some ⟨fun a => if a = addr then val else m.data a⟩ else none

/-- `MemoryMap::read_u16` (default method): little-endian pair of `read_u8`s at
`addr` and `addr + 1`. -/
def SimpleMap.read_u16 (m : SimpleMap) (addr : Nat) : Option Nat := do
  let lo ← m.read_u8 addr
  let hi ← m.read_u8 ((addr + 1) % 65536)
  pure (lo + 256 * hi)

/-- `RegisterSet` (`src/cpu/reg.rs`): pc is u16, the rest are u8. -/
structure RegisterSet where
  pc : Nat
  sp : Nat
  a : Nat
  x : Nat
  y : Nat
  p : Nat

def BITMASK_NEGATIVE : Nat := 0b10000000
def BITMASK_OVERFLOW : Nat := 0b01000000
def BITMASK_ZERO : Nat := 0b00000010
def BITMASK_CARRY : Nat := 0b00000001

/-- `RegisterSet::set_flag`: `p |= bitmask` or `p &= !bitmask` (`!` on u8 is
xor with 0xFF). -/
def set_flag (p bitmask : Nat) (value : Bool) : Nat :=
  if value then p ||| bitmask else p &&& (bitmask ^^^ 255)

def get_negative (p : Nat) : Bool := (p &&& BITMASK_NEGATIVE) != 0

def get_overflow (p : Nat) : Bool := (p &&& BITMASK_OVERFLOW) != 0

def get_zero (p : Nat) : Bool := (p &&& BITMASK_ZERO) != 0

def get_carry (p : Nat) : Bool := (p &&& BITMASK_CARRY) != 0

/-- `CPU::update_zn_from_value`: `set_negative(value >= 0x80); set_zero(value == 0x00)`.
`update_zn_from_accumulator` is this applied to the accumulator. -/
def update_zn_from_value (p value : Nat) : Nat :=
  set_flag (set_flag p BITMASK_NEGATIVE (decide (128 ≤ value))) BITMASK_ZERO (value == 0)

def is_negative (val : Nat) : Bool := (val &&& 0b10000000) != 0

def is_positive (val : Nat) : Bool := (val &&& 0b10000000) == 0

/-- `twos_add_overflow_carry` (`src/cpu.rs:28`): returns
`(result, overflow, carry)` of `value.overflowing_add(operand)` with the
sign-analysis overflow of the single 8-bit addition. -/
def twos_add_overflow_carry (value operand : Nat) : Nat × Bool × Bool :=
  let val_pos := is_positive value
  let op_pos := is_positive operand
  let result := (value + operand) % 256
  let carry := decide (256 ≤ value + operand)
  let res_pos := is_positive result
  let overflow := if res_pos then (!val_pos && !op_pos) else (val_pos && op_pos)
  (result, overflow, carry)

/-- `CPU::do_base_add`: chains two `twos_add_overflow_carry` calls (operand,
then carry addend), stores the result in A, then sets N,Z from A and C,V as the
disjunction of the per-stage carries/overflows. -/
def do_base_add (reg : RegisterSet) (operand carry : Nat) : RegisterSet :=
  let partial1 := twos_add_overflow_carry reg.a operand
  let carried := twos_add_overflow_carry partial1.1 carry
  let a' := carried.1
  let p1 := update_zn_from_value reg.p a'
  let p2 := set_flag p1 BITMASK_CARRY (partial1.2.2 || carried.2.2)
  let p3 := set_flag p2 BITMASK_OVERFLOW (partial1.2.1 || carried.2.1)
  { reg with a := a', p := p3 }

/-- `Mnemonic` (`src/cpu/ops.rs`). -/
inductive Mnemonic
  | ADC | AND | ASL | BIT
  | BPL | BMI | BVC | BVS | BCC | BCS | BNE | BEQ
  | BRK | CMP | CPX | CPY | DEC | EOR
  | CLC | SEC | CLI | SEI | CLV | CLD | SED
  | INC | JMP | JSR | LDA | LDX | LDY | LSR | NOP | ORA
  | TAX | TXA | DEX | INX | TAY | TYA | DEY | INY
  | ROL | ROR | RTI | RTS | SBC | STA
  | TXS | TSX | PHA | PLA | PHP | PLP | STX | STY

/-- `AddressMode` (`src/cpu/addr.rs`). -/
inductive AddressMode
  | Implicit | Accumulator | Immediate
  | ZeroPage | ZeroPageX | ZeroPageY
  | Relative | Absolute | AbsoluteX | AbsoluteY
  | Indirect | IndirectX | IndirectY

/-- `CPU::increment_pc`: `pc += opcode.bytes - 1` (u16 wraparound). -/
def increment_pc (reg : RegisterSet) (bytes : Nat) : RegisterSet :=
  { reg with pc := (reg.pc + (bytes - 1)) % 65536 }

/-- `CPU::do_add_sub` with the operand byte already fetched by
`get_operand_u8` and `bytes` taken from the opcode table entry.  The SBC arm
passes `!operand + 1` (wrapping, so `(operand ^^^ 255) + 1 mod 256`) and a
carry addend of `0xFF * carry_multiplier`; the ADC arm passes the operand and
`0x01 * carry_multiplier`.  Other mnemonics panic (`none`). -/
def do_add_sub (m : Mnemonic) (reg : RegisterSet) (operand : Nat) (bytes : Nat) :
    Option RegisterSet :=
  let carry_multiplier : Nat := if get_carry reg.p then 1 else 0
  match m with
  | .ADC => some (increment_pc (do_base_add reg operand (1 * carry_multiplier)) bytes)
  | .SBC => some (increment_pc
      (do_base_add reg (((operand ^^^ 255) + 1) % 256) (255 * carry_multiplier)) bytes)
  | _ => none

/-- Two's-complement reading of a byte, used to state the signed-range claims. -/
def to_signed (v : Nat) : Int := if v < 128 then (v : Int) else (v : Int) - 256

/-- CPU state: register set plus memory (`struct CPU`). -/
structure CPU where
  reg : RegisterSet
  mem : SimpleMap

/-- `CPU::do_bit_test` with the operand byte already fetched: sets Z from
`(operand & A) != 0`, then N and V from bits 7 and 6 of the operand. -/
def do_bit_test (reg : RegisterSet) (operand : Nat) (bytes : Nat) : RegisterSet :=
  let p1 := set_flag reg.p BITMASK_ZERO ((operand &&& reg.a) != 0)
  let p2 := set_flag p1 BITMASK_NEGATIVE ((operand &&& 0b10000000) != 0)
  let p3 := set_flag p2 BITMASK_OVERFLOW ((operand &&& 0b01000000) != 0)
  increment_pc { reg with p := p3 } bytes

/-- `CPU::do_compare` with the operand byte already fetched: picks the base
register from the mnemonic (panic otherwise), sets C from
`base_value > operand`, then N,Z from `base_value - operand` (wrapping u8
subtraction in release builds; operands are bytes). -/
def do_compare (m : Mnemonic) (reg : RegisterSet) (operand : Nat) (bytes : Nat) :
    Option RegisterSet := do
  let base_value ← match m with
    | .CMP => some reg.a
    | .CPX => some reg.x
    | .CPY => some reg.y
    | _ => none
  let p1 := set_flag reg.p BITMASK_CARRY (decide (operand < base_value))
  let p2 := update_zn_from_value p1 ((base_value + 256 - operand) % 256)
  some (increment_pc { reg with p := p2 } bytes)

/-- `CPU::do_crement` with the address already resolved by
`get_operand_address`: reads the byte, applies the DEC/INC arm
(`value.wrapping_add(1)` / `value.wrapping_sub(1)`; the byte read is below
256 so wrapping sub is `+ 255 mod 256`), writes it back and updates N,Z.
Other mnemonics panic (`none`). -/
def do_crement (m : Mnemonic) (s : CPU) (addr : Nat) (bytes : Nat) : Option CPU := do
  let value ← s.mem.read_u8 addr
  let result ← match m with
    | .DEC => some ((value + 1) % 256)
    | .INC => some ((value + 255) % 256)
    | _ => none
  let mem2 ← s.mem.write_u8 addr result
  let reg := { s.reg with p := update_zn_from_value s.reg.p result }
  some { reg := increment_pc reg bytes, mem := mem2 }

/-- `CPU::do_branch` with the operand byte (relative offset) already fetched at
the current pc: tests the mnemonic's flag polarity (panic for non-branches),
and when it holds adds the offset to pc via `wrapping_add(relative_offset as u16)`
(a zero-extending cast); then `increment_pc` runs unconditionally (`bytes = 2`
for every branch opcode in the table). -/
def do_branch (m : Mnemonic) (reg : RegisterSet) (relative_offset : Nat) (bytes : Nat) :
    Option RegisterSet := do
  let cond : Bool ← match m with
    | .BPL => some (!get_negative reg.p)
    | .BMI => some (get_negative reg.p)
    | .BVC => some (!get_overflow reg.p)
    | .BVS => some (get_overflow reg.p)
    | .BCC => some (!get_carry reg.p)
    | .BCS => some (get_carry reg.p)
    | .BNE => some (!get_zero reg.p)
    | .BEQ => some (get_zero reg.p)
    | _ => none
  let reg2 := if cond then { reg with pc := (reg.pc + relative_offset) % 65536 } else reg
  some (increment_pc reg2 bytes)

/-- `CPU::do_arithmetic_shift` (ASL).  Accumulator mode: carry from bit 7 of A,
then `a <<= 1`.  Any other mode: `addr` is the operand address resolved by
`get_operand_address`; the carry is taken from `self.reg.a & 0b1000_0000`
(exactly as the source reads), the memory operand is shifted and stored back. -/
def do_arithmetic_shift (mode : AddressMode) (s : CPU) (addr : Nat) (bytes : Nat) :
    Option CPU :=
  match mode with
  | .Accumulator =>
    let reg := { s.reg with p := set_flag s.reg.p BITMASK_CARRY ((s.reg.a &&& 0b10000000) != 0) }
    let reg2 := { reg with a := (reg.a * 2) % 256 }
    let reg3 := { reg2 with p := update_zn_from_value reg2.p reg2.a }
    some { s with reg := increment_pc reg3 bytes }
  | _ => do
    let operand ← s.mem.read_u8 addr
    let reg := { s.reg with p := set_flag s.reg.p BITMASK_CARRY ((s.reg.a &&& 0b10000000) != 0) }
    let result := (operand * 2) % 256
    let mem2 ← s.mem.write_u8 addr result
    let reg2 := { reg with p := update_zn_from_value reg.p result }
    some { reg := increment_pc reg2 bytes, mem := mem2 }

/-- `CPU::do_logical_shift` (LSR): as ASL but shifting right, with the carry
taken from bit 0; in memory modes the source again reads `self.reg.a & 1`. -/
def do_logical_shift (mode : AddressMode) (s : CPU) (addr : Nat) (bytes : Nat) :
    Option CPU :=
  match mode with
  | .Accumulator =>
    let reg := { s.reg with p := set_flag s.reg.p BITMASK_CARRY ((s.reg.a &&& 1) != 0) }
    let reg2 := { reg with a := reg.a / 2 }
    let reg3 := { reg2 with p := update_zn_from_value reg2.p reg2.a }
    some { s with reg := increment_pc reg3 bytes }
  | _ => do
    let operand ← s.mem.read_u8 addr
    let reg := { s.reg with p := set_flag s.reg.p BITMASK_CARRY ((s.reg.a &&& 1) != 0) }
    let result := operand / 2
    let mem2 ← s.mem.write_u8 addr result
    let reg2 := { reg with p := update_zn_from_value reg.p result }
    some { reg := increment_pc reg2 bytes, mem := mem2 }

/-- An all-zero memory map, used for concrete evaluations. -/
def zeroMap : SimpleMap := ⟨fun _ => 0⟩

/-- Memory holding byte `v` at address `a` and zero elsewhere. -/
def mapWith (a v : Nat) : SimpleMap := ⟨fun i => if i = a then v else 0⟩

/-- `CPU::STACK_ADDR_MIN`. -/
def STACK_ADDR_MIN : Nat := 0x0100

/-- `CPU::get_sp`: `STACK_ADDR_MIN + self.reg.sp as u16` (sp is a byte, so the
u16 addition cannot wrap). -/
def get_sp (s : CPU) : Nat := STACK_ADDR_MIN + s.reg.sp

/-- `CPU::increment_sp`: `sp.wrapping_add(1)`. -/
def increment_sp (s : CPU) : CPU :=
  { s with reg := { s.reg with sp := (s.reg.sp + 1) % 256 } }

/-- `CPU::decrement_sp`: `sp.wrapping_sub(1)` (sp is a byte, so this is
`+ 255 mod 256`). -/
def decrement_sp (s : CPU) : CPU :=
  { s with reg := { s.reg with sp := (s.reg.sp + 255) % 256 } }

/-- `CPU::push_u8`: write at `get_sp`, then decrement sp. -/
def push_u8 (s : CPU) (value : Nat) : Option CPU := do
  let mem2 ← s.mem.write_u8 (get_sp s) value
  pure (decrement_sp { s with mem := mem2 })

/-- `CPU::push_u16`: `to_le_bytes` splits into `lo = value % 256` and
`hi = value / 256 % 256`; the most significant byte is pushed first. -/
def push_u16 (s : CPU) (value : Nat) : Option CPU := do
  let s1 ← push_u8 s (value / 256 % 256)
  push_u8 s1 (value % 256)

/-- `CPU::pull_u8`: increment sp, then read at `get_sp`. -/
def pull_u8 (s : CPU) : Option (Nat × CPU) := do
  let s1 := increment_sp s
  let v ← s1.mem.read_u8 (get_sp s1)
  pure (v, s1)

/-- `CPU::pull_u16`: least significant byte pulled first,
`u16::from_le_bytes([lo, hi])`. -/
def pull_u16 (s : CPU) : Option (Nat × CPU) := do
  let (lo, s1) ← pull_u8 s
  let (hi, s2) ← pull_u8 s1
  pure (lo + 256 * hi, s2)

/-- The power-on CPU state used for concrete evaluations: all registers and
memory zero. -/
def cpu0 : CPU := ⟨⟨0, 0, 0, 0, 0, 0⟩, zeroMap⟩

/-- `CPU::run_with_callback`, parametrized over the `step` implementation so
that the theorem about the loop quantifies over it.  One loop iteration:
invoke the callback (an `Err` result panics, modelled `none`), read the byte
at pc (out of bounds panics), return on 0x00 (BRK), otherwise step and loop.
`fuel` bounds the number of iterations; `none` when it runs out. -/
def run_with_callback (stepFn : CPU → CPU) (callback : CPU → Option CPU) :
    Nat → CPU → Option CPU
  | 0, _ => none
  | fuel + 1, s =>
    match callback s with
    | none => none
    | some s1 =>
      match s1.mem.read_u8 s1.reg.pc with
      | none => none
      | some 0 => some s1
      | some _ => run_with_callback stepFn callback fuel (stepFn s1)

/-- `CPU::run`: `run_with_callback` with the do-nothing callback `|_| Ok(())`. -/
def run (stepFn : CPU → CPU) (fuel : Nat) (s : CPU) : Option CPU :=
  run_with_callback stepFn (fun s2 => some s2) fuel s

/-- Claim C1: the claim requires V to be set iff the signed sum of a, b and the
incoming carry lies outside -128..127.  At a = 0x80, b = 0xFF with carry in,
the signed sum is (-128) + (-1) + 1 = -128, inside the range, yet `do_add_sub`
(ADC, opcode 0x69, 2 bytes) sets V: the per-stage overflow disjunction of
`do_base_add` misreports this corner.  A and C agree with the claim here
(A = 0x80, unsigned sum 0x180 > 255 so C is set). -/
theorem adc_v_flag_set_despite_in_range_sum :
    (do_add_sub .ADC ⟨0, 0xFD, 0x80, 0, 0, 0x01⟩ 0xFF 2).map
        (fun r => (r.a, get_carry r.p, get_overflow r.p)) = some (0x80, true, true) ∧
    to_signed 0x80 + to_signed 0xFF + 1 = -128 ∧
    (-128 : Int) ≤ -128 ∧ (-128 : Int) ≤ 127 := by decide

/-- Claim C2 counterexample: with a = 0, b = 0 and carry clear, SBC leaves
A = 0 (it adds the two's complement `!0 + 1 = 0`), while ADC of the one's
complement `!0 = 0xFF` with the same clear carry leaves A = 0xFF, so
`SBC(a, b, c) = ADC(a, !b, c)` fails. -/
theorem sbc_ne_adc_ones_complement :
    (do_add_sub .SBC ⟨0, 0xFD, 0, 0, 0, 0⟩ 0 2).map (fun r => r.a) ≠
    (do_add_sub .ADC ⟨0, 0xFD, 0, 0, 0, 0⟩ 0xFF 2).map (fun r => r.a) := by decide

/-- Claim C3: the claim says DEC stores `(v - 1) mod 256` and INC stores
`(v + 1) mod 256`.  On a byte v = 5 (DEC opcode 0xC6 / INC opcode 0xE6,
ZeroPage, 2 bytes) the code stores 6 for DEC and 4 for INC: the two match
arms of `do_crement` are swapped relative to their mnemonics. -/
theorem dec_adds_inc_subtracts :
    (do_crement .DEC ⟨⟨0, 0xFD, 0, 0, 0, 0⟩, mapWith 0x10 5⟩ 0x10 2).map
        (fun t => t.mem.data 0x10) = some 6 ∧
    (do_crement .INC ⟨⟨0, 0xFD, 0, 0, 0, 0⟩, mapWith 0x10 5⟩ 0x10 2).map
        (fun t => t.mem.data 0x10) = some 4 := by decide

/-- Claim C4: the claim says Z is set iff `(operand AND A) == 0`.  With A = 0
and operand 0 the AND result is 0, yet `do_bit_test` leaves Z clear: the
source sets Z from `(operand & a) != 0`, the inverted polarity.  (N and V do
come from bits 7 and 6 of the operand, as a second evaluation with operand
0xC0 shows.) -/
theorem bit_zero_flag_inverted :
    get_zero (do_bit_test ⟨0, 0xFD, 0, 0, 0, 0⟩ 0 2).p = false ∧
    (0 &&& 0 : Nat) = 0 ∧
    get_negative (do_bit_test ⟨0, 0xFD, 0, 0, 0, 0⟩ 0xC0 2).p = true ∧
    get_overflow (do_bit_test ⟨0, 0xFD, 0, 0, 0, 0⟩ 0xC0 2).p = true := by decide

/-- Claim C5: the claim says C is set iff register >= operand (unsigned).  At
A = 5 with operand 5 (CMP immediate 0xC9, 2 bytes), `do_compare` leaves C
clear because the source tests the strict `base_value > operand`; Z is set
from the subtraction result 0 as claimed. -/
theorem compare_carry_clear_on_equal :
    (do_compare .CMP ⟨0, 0xFD, 5, 0, 0, 0⟩ 5 2).map
        (fun r => (get_carry r.p, get_zero r.p)) = some (false, true) := by decide

/-- Claim C6: the claim says the operand is a sign-extended signed offset, so
offset 0xFE from a taken branch at 0x8000 (operand at pc = 0x8001) must land
at 0x8000 + 2 - 2 = 0x8000.  `do_branch` (BEQ with Z set) instead lands at
0x8100: the cast `relative_offset as u16` zero-extends, moving pc forward by
254. -/
theorem branch_offset_zero_extended :
    (do_branch .BEQ ⟨0x8001, 0xFD, 0, 0, 0, BITMASK_ZERO⟩ 0xFE 2).map
        (fun r => r.pc) = some 0x8100 ∧
    to_signed 0xFE = -2 ∧ (0x8002 : Int) + to_signed 0xFE = 0x8000 := by decide

/-- Claim C7: the claim says a memory-mode ASL takes C from bit 7 of the byte
previously at the resolved address (bit 0 for LSR).  With A = 0 and the byte
0x80 at the address, ASL (ZeroPage 0x06) leaves C clear even though bit 7 of
the operand is set (the source reads `self.reg.a & 0b1000_0000`); likewise
LSR over the byte 0x01 leaves C clear.  The shifted bytes are stored back as
claimed (0x80 << 1 = 0, 0x01 >> 1 = 0), and in Accumulator mode the carry does
come from A's shifted-out bit. -/
theorem shift_memory_carry_from_accumulator :
    (do_arithmetic_shift .ZeroPage ⟨⟨0, 0xFD, 0, 0, 0, 0⟩, mapWith 0x10 0x80⟩ 0x10 2).map
        (fun t => (get_carry t.reg.p, t.mem.data 0x10)) = some (false, 0) ∧
    (0x80 &&& 0b10000000 : Nat) ≠ 0 ∧
    (do_logical_shift .ZeroPage ⟨⟨0, 0xFD, 0, 0, 0, 0⟩, mapWith 0x10 0x01⟩ 0x10 2).map
        (fun t => (get_carry t.reg.p, t.mem.data 0x10)) = some (false, 0) ∧
    (0x01 &&& 1 : Nat) ≠ 0 ∧
    (do_arithmetic_shift .Accumulator ⟨⟨0, 0xFD, 0x80, 0, 0, 0⟩, zeroMap⟩ 0 1).map
        (fun t => (get_carry t.reg.p, t.reg.a)) = some (true, 0) := by decide

/-- Claim C8: the claim says all 65536 addresses 0x0000..0xFFFF succeed.  The
CPU instantiates `SimpleMap<0xFFFF>`, a 65535-byte array, so the in-range u16
address 0xFFFF indexes out of bounds: `read_u8` and `write_u8` panic there and
`read_u16` at 0xFFFE panics on its high byte. -/
theorem memory_access_fails_at_top_address :
    zeroMap.read_u8 0xFFFF = none ∧
    (zeroMap.write_u8 0xFFFF 0).isNone = true ∧
    zeroMap.read_u16 0xFFFE = none ∧
    0xFFFF < 65536 ∧ zeroMap.read_u8 0xFFFE = some 0 := by decide

set_option maxRecDepth 16000 in
theorem flag_update_aux : ∀ q : Fin 256, ∀ v : Bool,
    get_carry (set_flag q.val BITMASK_CARRY v) = v ∧
    get_negative (set_flag q.val BITMASK_CARRY v) = get_negative q.val ∧
    get_zero (set_flag q.val BITMASK_CARRY v) = get_zero q.val ∧
    get_negative (set_flag q.val BITMASK_OVERFLOW v) = get_negative q.val ∧
    get_zero (set_flag q.val BITMASK_OVERFLOW v) = get_zero q.val ∧
    get_negative (set_flag q.val BITMASK_NEGATIVE v) = v ∧
    get_zero (set_flag q.val BITMASK_NEGATIVE v) = get_zero q.val ∧
    get_negative (set_flag q.val BITMASK_ZERO v) = get_negative q.val ∧
    get_zero (set_flag q.val BITMASK_ZERO v) = v := by decide

set_option maxRecDepth 16000 in
theorem xor_255_aux : ∀ b : Fin 256, b.val ^^^ 255 = 255 - b.val := by decide

theorem set_flag_lt {q m : Nat} (hq : q < 256) (hm : m < 256) (v : Bool) :
    set_flag q m v < 256 := by
  unfold set_flag
  cases v with
  | false => exact Nat.lt_of_le_of_lt Nat.and_le_left hq
  | true => exact Nat.or_lt_two_pow (n := 8) hq hm

theorem update_zn_lt {q v : Nat} (hq : q < 256) :
    update_zn_from_value q v < 256 := by
  unfold update_zn_from_value
  exact set_flag_lt (set_flag_lt hq (by norm_num [BITMASK_NEGATIVE]) _)
    (by norm_num [BITMASK_ZERO]) _

theorem get_carry_sf_carry {q : Nat} (hq : q < 256) (v : Bool) :
    get_carry (set_flag q BITMASK_CARRY v) = v := (flag_update_aux ⟨q, hq⟩ v).1

theorem get_negative_sf_carry {q : Nat} (hq : q < 256) (v : Bool) :
    get_negative (set_flag q BITMASK_CARRY v) = get_negative q :=
  (flag_update_aux ⟨q, hq⟩ v).2.1

theorem get_zero_sf_carry {q : Nat} (hq : q < 256) (v : Bool) :
    get_zero (set_flag q BITMASK_CARRY v) = get_zero q :=
  (flag_update_aux ⟨q, hq⟩ v).2.2.1

theorem get_negative_sf_overflow {q : Nat} (hq : q < 256) (v : Bool) :
    get_negative (set_flag q BITMASK_OVERFLOW v) = get_negative q :=
  (flag_update_aux ⟨q, hq⟩ v).2.2.2.1

theorem get_zero_sf_overflow {q : Nat} (hq : q < 256) (v : Bool) :
    get_zero (set_flag q BITMASK_OVERFLOW v) = get_zero q :=
  (flag_update_aux ⟨q, hq⟩ v).2.2.2.2.1

theorem get_negative_sf_negative {q : Nat} (hq : q < 256) (v : Bool) :
    get_negative (set_flag q BITMASK_NEGATIVE v) = v :=
  (flag_update_aux ⟨q, hq⟩ v).2.2.2.2.2.1

theorem get_negative_sf_zero {q : Nat} (hq : q < 256) (v : Bool) :
    get_negative (set_flag q BITMASK_ZERO v) = get_negative q :=
  (flag_update_aux ⟨q, hq⟩ v).2.2.2.2.2.2.2.1

theorem get_zero_sf_zero {q : Nat} (hq : q < 256) (v : Bool) :
    get_zero (set_flag q BITMASK_ZERO v) = v :=
  (flag_update_aux ⟨q, hq⟩ v).2.2.2.2.2.2.2.2

/-- N and Z of the flag chain `update_zn; set_carry; set_overflow` shared by
`do_base_add`: they are determined by the stored value alone. -/
theorem chain_nz (q a' : Nat) (c o : Bool) (hq : q < 256) :
    get_negative (set_flag (set_flag (update_zn_from_value q a')
        BITMASK_CARRY c) BITMASK_OVERFLOW o) = decide (128 ≤ a') ∧
    get_zero (set_flag (set_flag (update_zn_from_value q a')
        BITMASK_CARRY c) BITMASK_OVERFLOW o) = (a' == 0) := by
  have hn : (BITMASK_NEGATIVE : Nat) < 256 := by norm_num [BITMASK_NEGATIVE]
  have hz : (BITMASK_ZERO : Nat) < 256 := by norm_num [BITMASK_ZERO]
  have hc : (BITMASK_CARRY : Nat) < 256 := by norm_num [BITMASK_CARRY]
  have h1 : set_flag q BITMASK_NEGATIVE (decide (128 ≤ a')) < 256 := set_flag_lt hq hn _
  have h2 : update_zn_from_value q a' < 256 := update_zn_lt hq
  have h3 : set_flag (update_zn_from_value q a') BITMASK_CARRY c < 256 := set_flag_lt h2 hc _
  constructor
  · rw [get_negative_sf_overflow h3, get_negative_sf_carry h2]
    unfold update_zn_from_value
    rw [get_negative_sf_zero h1, get_negative_sf_negative hq]
  · rw [get_zero_sf_overflow h3, get_zero_sf_carry h2]
    unfold update_zn_from_value
    rw [get_zero_sf_zero h1]

/-- Final accumulator, N and Z of `do_base_add` in terms of the wrapped sum. -/
theorem do_base_add_spec (reg : RegisterSet) (operand carry : Nat) (hp : reg.p < 256) :
    (do_base_add reg operand carry).a = ((reg.a + operand) % 256 + carry) % 256 ∧
    get_negative (do_base_add reg operand carry).p
      = decide (128 ≤ ((reg.a + operand) % 256 + carry) % 256) ∧
    get_zero (do_base_add reg operand carry).p
      = (((reg.a + operand) % 256 + carry) % 256 == 0) := by
  refine ⟨rfl, ?_, ?_⟩
  · exact (chain_nz reg.p (((reg.a + operand) % 256 + carry) % 256) _ _ hp).1
  · exact (chain_nz reg.p (((reg.a + operand) % 256 + carry) % 256) _ _ hp).2

/-- Claim C2 amended: SBC with operand b and incoming carry c yields the same
accumulator — `(a - b - c) mod 256` — and therefore the same N and Z flags as
ADC with operand `!b` and the *complemented* incoming carry `!c`.  (The C and
V flags of the two executions do not coincide in general.) -/
theorem sbc_matches_adc_complemented_carry (pc sp a x y b p bytes : Nat) (c : Bool)
    (hb : b < 256) (hp : p < 256) :
    (do_add_sub .SBC ⟨pc, sp, a, x, y, set_flag p BITMASK_CARRY c⟩ b bytes).map
        (fun r => (r.a, get_negative r.p, get_zero r.p)) =
    (do_add_sub .ADC ⟨pc, sp, a, x, y, set_flag p BITMASK_CARRY (!c)⟩ (b ^^^ 255) bytes).map
        (fun r => (r.a, get_negative r.p, get_zero r.p)) := by
  have hcar : get_carry (set_flag p BITMASK_CARRY c) = c := get_carry_sf_carry hp c
  have hcar' : get_carry (set_flag p BITMASK_CARRY (!c)) = !c := get_carry_sf_carry hp (!c)
  have hxor : b ^^^ 255 = 255 - b := xor_255_aux ⟨b, hb⟩
  have hlt : set_flag p BITMASK_CARRY c < 256 :=
    set_flag_lt hp (by norm_num [BITMASK_CARRY]) c
  have hlt' : set_flag p BITMASK_CARRY (!c) < 256 :=
    set_flag_lt hp (by norm_num [BITMASK_CARRY]) (!c)
  obtain ⟨ha1, hn1, hz1⟩ := do_base_add_spec ⟨pc, sp, a, x, y, set_flag p BITMASK_CARRY c⟩
    (((b ^^^ 255) + 1) % 256) (255 * (if c then 1 else 0)) hlt
  obtain ⟨ha2, hn2, hz2⟩ := do_base_add_spec ⟨pc, sp, a, x, y, set_flag p BITMASK_CARRY (!c)⟩
    (b ^^^ 255) (1 * (if !c then 1 else 0)) hlt'
  dsimp only at ha1 hn1 hz1 ha2 hn2 hz2
  have hkey : ((a + ((b ^^^ 255) + 1) % 256) % 256 + 255 * (if c then 1 else 0)) % 256
      = ((a + (b ^^^ 255)) % 256 + 1 * (if !c then 1 else 0)) % 256 := by
    rw [hxor]; cases c <;> simp <;> omega
  simp only [do_add_sub, hcar, hcar', Option.map_some', increment_pc]
  rw [Option.some.injEq, Prod.mk.injEq, Prod.mk.injEq]
  refine ⟨?_, ?_, ?_⟩
  · rw [ha1, ha2]; exact hkey
  · rw [hn1, hn2, hkey]
  · rw [hz1, hz2, hkey]

/-- Claim C2 amended, witness at a = 0x30, b = 0x41, carry set. -/
theorem sbc_matches_adc_complemented_carry_witness :
    (do_add_sub .SBC ⟨0, 0xFD, 0x30, 0, 0, set_flag 0 BITMASK_CARRY true⟩ 0x41 2).map
        (fun r => (r.a, get_negative r.p, get_zero r.p)) =
    (do_add_sub .ADC ⟨0, 0xFD, 0x30, 0, 0, set_flag 0 BITMASK_CARRY (!true)⟩
        (0x41 ^^^ 255) 2).map
        (fun r => (r.a, get_negative r.p, get_zero r.p)) :=
  sbc_matches_adc_complemented_carry 0 0xFD 0x30 0 0 0x41 0 2 true
    (by decide) (by decide)

/-- The state after `push_u8`, in closed form (stack addresses are below
`MEM_SIZE`, so the write cannot fail). -/
theorem push_u8_spec (s : CPU) (value : Nat) (hsp : s.reg.sp < 256) :
    push_u8 s value = some
      { reg := { s.reg with sp := (s.reg.sp + 255) % 256 },
        mem := ⟨fun a => if a = STACK_ADDR_MIN + s.reg.sp then value else s.mem.data a⟩ } := by
  unfold push_u8 SimpleMap.write_u8 get_sp
  rw [if_pos (by unfold STACK_ADDR_MIN MEM_SIZE; omega)]
  rfl

/-- The result of `pull_u8`, in closed form. -/
theorem pull_u8_spec (s : CPU) (_hsp : s.reg.sp < 256) :
    pull_u8 s = some
      (s.mem.data (STACK_ADDR_MIN + (s.reg.sp + 1) % 256),
        { s with reg := { s.reg with sp := (s.reg.sp + 1) % 256 } }) := by
  simp only [pull_u8, increment_sp, SimpleMap.read_u8, get_sp]
  rw [if_pos (show STACK_ADDR_MIN + (s.reg.sp + 1) % 256 < MEM_SIZE by
    unfold STACK_ADDR_MIN MEM_SIZE; omega)]
  rfl

/-- `push_u8_spec` with the CPU state given fieldwise. -/
theorem push_u8_spec' (pc sp a x y p : Nat) (f : Nat → Nat) (value : Nat) (hsp : sp < 256) :
    push_u8 ⟨⟨pc, sp, a, x, y, p⟩, ⟨f⟩⟩ value =
      some ⟨⟨pc, (sp + 255) % 256, a, x, y, p⟩,
        ⟨fun a2 => if a2 = STACK_ADDR_MIN + sp then value else f a2⟩⟩ :=
  push_u8_spec ⟨⟨pc, sp, a, x, y, p⟩, ⟨f⟩⟩ value hsp

/-- `pull_u8_spec` with the CPU state given fieldwise. -/
theorem pull_u8_spec' (pc sp a x y p : Nat) (f : Nat → Nat) (hsp : sp < 256) :
    pull_u8 ⟨⟨pc, sp, a, x, y, p⟩, ⟨f⟩⟩ =
      some (f (STACK_ADDR_MIN + (sp + 1) % 256),
        ⟨⟨pc, (sp + 1) % 256, a, x, y, p⟩, ⟨f⟩⟩) :=
  pull_u8_spec ⟨⟨pc, sp, a, x, y, p⟩, ⟨f⟩⟩ hsp

/-- Claim C9: for every 16-bit value x and every stack pointer, `push_u16 x`
followed by `pull_u16` returns x with SP restored to its pre-push value (the
`% 256` arithmetic covers the wrap at SP = 0x00 uniformly), the high byte of x
lands at the address used first (`0x0100 + sp`), the low byte one below it
(mod 256), and both addresses lie inside the stack page 0x0100..0x01FF. -/
theorem push_pull_u16_round_trip (s : CPU) (x : Nat)
    (hsp : s.reg.sp < 256) (hx : x < 65536) :
    (push_u16 s x >>= pull_u16).map (fun r => (r.1, r.2.reg.sp))
      = some (x, s.reg.sp) ∧
    (push_u16 s x).map (fun t => t.mem.data (STACK_ADDR_MIN + s.reg.sp))
      = some (x / 256 % 256) ∧
    (push_u16 s x).map (fun t => t.mem.data (STACK_ADDR_MIN + (s.reg.sp + 255) % 256))
      = some (x % 256) ∧
    STACK_ADDR_MIN ≤ STACK_ADDR_MIN + s.reg.sp ∧
    STACK_ADDR_MIN + s.reg.sp ≤ 0x01FF ∧
    STACK_ADDR_MIN ≤ STACK_ADDR_MIN + (s.reg.sp + 255) % 256 ∧
    STACK_ADDR_MIN + (s.reg.sp + 255) % 256 ≤ 0x01FF := by
  obtain ⟨⟨pc0, sp0, a0, x0, y0, p0⟩, ⟨md⟩⟩ := s
  dsimp only at hsp ⊢
  have h3 : push_u16 ⟨⟨pc0, sp0, a0, x0, y0, p0⟩, ⟨md⟩⟩ x =
      some ⟨⟨pc0, ((sp0 + 255) % 256 + 255) % 256, a0, x0, y0, p0⟩,
        ⟨fun a => if a = STACK_ADDR_MIN + (sp0 + 255) % 256 then x % 256
          else if a = STACK_ADDR_MIN + sp0 then x / 256 % 256 else md a⟩⟩ := by
    unfold push_u16
    rw [push_u8_spec' pc0 sp0 a0 x0 y0 p0 md (x / 256 % 256) hsp]
    simp only [Option.bind_eq_bind, Option.some_bind]
    exact push_u8_spec' pc0 ((sp0 + 255) % 256) a0 x0 y0 p0
      (fun a2 => if a2 = STACK_ADDR_MIN + sp0 then x / 256 % 256 else md a2)
      (x % 256) (by omega)
  have e1 : (((sp0 + 255) % 256 + 255) % 256 + 1) % 256 = (sp0 + 255) % 256 := by omega
  have e2 : ((sp0 + 255) % 256 + 1) % 256 = sp0 := by omega
  have h4 : pull_u8 (⟨⟨pc0, ((sp0 + 255) % 256 + 255) % 256, a0, x0, y0, p0⟩,
        ⟨fun a => if a = STACK_ADDR_MIN + (sp0 + 255) % 256 then x % 256
          else if a = STACK_ADDR_MIN + sp0 then x / 256 % 256 else md a⟩⟩ : CPU) =
      some (x % 256, ⟨⟨pc0, (sp0 + 255) % 256, a0, x0, y0, p0⟩,
        ⟨fun a => if a = STACK_ADDR_MIN + (sp0 + 255) % 256 then x % 256
          else if a = STACK_ADDR_MIN + sp0 then x / 256 % 256 else md a⟩⟩) := by
    rw [pull_u8_spec' pc0 (((sp0 + 255) % 256 + 255) % 256) a0 x0 y0 p0
      (fun a => if a = STACK_ADDR_MIN + (sp0 + 255) % 256 then x % 256
        else if a = STACK_ADDR_MIN + sp0 then x / 256 % 256 else md a) (by omega)]
    rw [e1]
    rw [if_pos rfl]
  have h5 : pull_u8 (⟨⟨pc0, (sp0 + 255) % 256, a0, x0, y0, p0⟩,
        ⟨fun a => if a = STACK_ADDR_MIN + (sp0 + 255) % 256 then x % 256
          else if a = STACK_ADDR_MIN + sp0 then x / 256 % 256 else md a⟩⟩ : CPU) =
      some (x / 256 % 256, ⟨⟨pc0, sp0, a0, x0, y0, p0⟩,
        ⟨fun a => if a = STACK_ADDR_MIN + (sp0 + 255) % 256 then x % 256
          else if a = STACK_ADDR_MIN + sp0 then x / 256 % 256 else md a⟩⟩) := by
    rw [pull_u8_spec' pc0 ((sp0 + 255) % 256) a0 x0 y0 p0
      (fun a => if a = STACK_ADDR_MIN + (sp0 + 255) % 256 then x % 256
        else if a = STACK_ADDR_MIN + sp0 then x / 256 % 256 else md a) (by omega)]
    rw [e2]
    rw [if_neg (show ¬ (STACK_ADDR_MIN + sp0 = STACK_ADDR_MIN + (sp0 + 255) % 256) by
      unfold STACK_ADDR_MIN; omega)]
    rw [if_pos rfl]
  refine ⟨?_, ?_, ?_, by omega, by unfold STACK_ADDR_MIN; omega,
    by omega, by unfold STACK_ADDR_MIN; omega⟩
  · rw [h3]
    simp only [Option.bind_eq_bind, Option.some_bind]
    unfold pull_u16
    rw [h4]
    simp only [Option.bind_eq_bind, Option.some_bind]
    rw [h5]
    simp only [Option.bind_eq_bind, Option.some_bind, Option.pure_def, Option.map_some']
    rw [Option.some.injEq, Prod.mk.injEq]
    exact ⟨by omega, rfl⟩
  · rw [h3]
    rw [Option.map_some']
    dsimp only
    rw [if_neg (show ¬ (STACK_ADDR_MIN + sp0 = STACK_ADDR_MIN + (sp0 + 255) % 256) by
      unfold STACK_ADDR_MIN; omega)]
    rw [if_pos rfl]
  · rw [h3]
    rw [Option.map_some']
    dsimp only
    rw [if_pos rfl]

/-- Claim C9, witness at the straddle case SP = 0 with x = 0xBEEF. -/
theorem push_pull_u16_round_trip_witness :
    (push_u16 cpu0 0xBEEF >>= pull_u16).map (fun r => (r.1, r.2.reg.sp))
      = some (0xBEEF, cpu0.reg.sp) ∧
    (push_u16 cpu0 0xBEEF).map (fun t => t.mem.data (STACK_ADDR_MIN + cpu0.reg.sp))
      = some (0xBEEF / 256 % 256) ∧
    (push_u16 cpu0 0xBEEF).map
        (fun t => t.mem.data (STACK_ADDR_MIN + (cpu0.reg.sp + 255) % 256))
      = some (0xBEEF % 256) ∧
    STACK_ADDR_MIN ≤ STACK_ADDR_MIN + cpu0.reg.sp ∧
    STACK_ADDR_MIN + cpu0.reg.sp ≤ 0x01FF ∧
    STACK_ADDR_MIN ≤ STACK_ADDR_MIN + (cpu0.reg.sp + 255) % 256 ∧
    STACK_ADDR_MIN + (cpu0.reg.sp + 255) % 256 ≤ 0x01FF :=
  push_pull_u16_round_trip cpu0 0xBEEF (by decide) (by decide)

/-- Claim C10: whenever the byte at pc is 0x00 (BRK) and the callback succeeds
without mutating the state, `run_with_callback` — for any `step`
implementation, which is therefore never invoked — and `run` return the state
exactly as it was: registers, flags and memory untouched, so the BRK handler's
pc increment and stack pushes never happen through the run loop. -/
theorem run_returns_on_brk (stepFn : CPU → CPU) (callback : CPU → Option CPU)
    (s : CPU) (fuel : Nat) (hcb : callback s = some s)
    (hpc : s.mem.read_u8 s.reg.pc = some 0) (hf : 0 < fuel) :
    run_with_callback stepFn callback fuel s = some s ∧
    run stepFn fuel s = some s := by
  obtain ⟨fuel, rfl⟩ : ∃ k, fuel = k + 1 :=
    ⟨fuel - 1, by omega⟩
  constructor
  · show run_with_callback stepFn callback (fuel + 1) s = some s
    unfold run_with_callback
    rw [hcb]
    dsimp only
    rw [hpc]
  · show run_with_callback stepFn (fun s2 => some s2) (fuel + 1) s = some s
    unfold run_with_callback
    dsimp only
    rw [hpc]

/-- Claim C10, witness: the power-on state has 0x00 at pc = 0. -/
theorem run_returns_on_brk_witness :
    run_with_callback id (fun s2 => some s2) 1 cpu0 = some cpu0 ∧
    run id 1 cpu0 = some cpu0 :=
  run_returns_on_brk id (fun s2 => some s2) cpu0 1 rfl (by decide) (by decide)

end NesRs
